import Mathlib

/-!
# Verification of the webhook dashboard's blob-storage query engine

This file embeds the server-side storage service of the webhook dashboard
(`server/services/blobStorage.ts` and its Express router) as executable Lean
definitions, and proves or refutes the specification's claims about it.

Strings are modelled as `List Char` (JavaScript strings restricted to the
code points the service manipulates).  JSON values are an inductive `Json`;
`JSON.parse` is modelled by a fuel-based parser `jsonParse` over the JSON
grammar (numbers restricted to integers, which are the only numbers the
records at issue contain).  The blob store is a list of `Blob`s: a name, an
optional parsed content (`none` models a blob whose bytes fail to download
or fail `JSON.parse` — the code treats both identically via one `catch`),
and a flag telling whether a delete of that blob would succeed.
-/

/-- JavaScript `String.prototype.toLowerCase`, restricted to ASCII case
mapping, on `List Char`. -/
def lowerStr (s : List Char) : List Char := s.map Char.toLower

/-- JavaScript `String.prototype.toUpperCase`, restricted to ASCII case
mapping, on `List Char`. -/
def upperStr (s : List Char) : List Char := s.map Char.toUpper

/-- Does `needle` occur at the very start of `hay`?  (Helper for the
substring test `String.prototype.includes`.) -/
def leadMatch : List Char → List Char → Bool
  | _, [] => true
  | [], _ :: _ => false
  | a :: hs, b :: ns => a == b && leadMatch hs ns

/-- JavaScript `hay.includes(needle)`: does `needle` occur contiguously
anywhere in `hay`? -/
def hasSub : List Char → List Char → Bool
  | [], needle => needle.isEmpty
  | a :: hs, needle => leadMatch (a :: hs) needle || hasSub hs needle

/-- JavaScript `name.endsWith('.json')`. -/
def endsJson (name : List Char) : Bool :=
  leadMatch name.reverse (".json".toList.reverse)

/-- A JSON value.  Numbers are restricted to integers: the stored records
and request bodies this service reads use no fractional numbers, and the
claims under verification involve none. -/
inductive Json where
  | null
  | bool (b : Bool)
  | num (n : Int)
  | str (s : List Char)
  | arr (xs : List Json)
  | obj (fields : List (List Char × Json))

/-- JavaScript property access `v[k]` for the object case: JSON.parse keeps
the LAST binding of a duplicated key, so lookup returns the last match.
Property access on non-objects yields `undefined` (`none`); the service
never accesses properties of `null` outside a `try` (see `loadRecord`). -/
def jsGet (v : Json) (k : List Char) : Option Json :=
  match v with
  | .obj fields => fields.foldl (fun acc kv => if kv.1 == k then some kv.2 else acc) none
  | _ => none

/-- JavaScript truthiness of a JSON value. -/
def truthy : Json → Bool
  | .null => false
  | .bool b => b
  | .num n => n != 0
  | .str s => !s.isEmpty
  | .arr _ => true
  | .obj _ => true

/-- Decimal rendering of an integer (JavaScript `String(n)` for integral
numbers). -/
def intStr (n : Int) : List Char := (toString n).toList

mutual
/-- JavaScript `String(v)` coercion of a JSON value. -/
def jsToString : Json → List Char
  | .str s => s
  | .bool b => if b then "true".toList else "false".toList
  | .num n => intStr n
  | .null => "null".toList
  | .arr xs => jsArrStr xs
  | .obj _ => "[object Object]".toList

/-- JavaScript `Array.prototype.toString`: elements joined by commas
(`null` elements render empty, as in JavaScript). -/
def jsArrStr : List Json → List Char
  | [] => []
  | [x] => jsElemStr x
  | x :: y :: rest => jsElemStr x ++ [','] ++ jsArrStr (y :: rest)

/-- One array element inside `Array.prototype.toString`. -/
def jsElemStr : Json → List Char
  | .null => []
  | v => jsToString v
end

/-- JSON whitespace. -/
def isWs (c : Char) : Bool := [' ', '\n', '\t', '\r'].contains c

/-- Drop leading JSON whitespace. -/
def skipWs : List Char → List Char
  | [] => []
  | c :: cs => if isWs c then skipWs cs else c :: cs

/-- Hexadecimal digit value, for `\uXXXX` escapes. -/
def hexVal (c : Char) : Option Nat :=
  let n := c.toNat
  if 48 ≤ n ∧ n ≤ 57 then some (n - 48)
  else if 97 ≤ n ∧ n ≤ 102 then some (n - 87)
  else if 65 ≤ n ∧ n ≤ 70 then some (n - 55)
  else none

/-- Body of a JSON string literal after the opening quote: returns the
decoded characters and the input after the closing quote. -/
def strBody : List Char → Option (List Char × List Char)
  | [] => none
  | '"' :: rest => some ([], rest)
  | '\\' :: e :: rest =>
    match e with
    | '"' => (strBody rest).map (fun p => ('"' :: p.1, p.2))
    | '\\' => (strBody rest).map (fun p => ('\\' :: p.1, p.2))
    | '/' => (strBody rest).map (fun p => ('/' :: p.1, p.2))
    | 'b' => (strBody rest).map (fun p => ('\x08' :: p.1, p.2))
    | 'f' => (strBody rest).map (fun p => ('\x0c' :: p.1, p.2))
    | 'n' => (strBody rest).map (fun p => ('\n' :: p.1, p.2))
    | 'r' => (strBody rest).map (fun p => ('\r' :: p.1, p.2))
    | 't' => (strBody rest).map (fun p => ('\t' :: p.1, p.2))
    | 'u' =>
      match rest with
      | h1 :: h2 :: h3 :: h4 :: rest' =>
        match hexVal h1, hexVal h2, hexVal h3, hexVal h4 with
        | some a, some b, some c, some d =>
          (strBody rest').map (fun p =>
            (Char.ofNat (((a * 16 + b) * 16 + c) * 16 + d) :: p.1, p.2))
        | _, _, _, _ => none
      | _ => none
    | _ => none
  | c :: rest =>
    if c.toNat < 32 then none
    else (strBody rest).map (fun p => (c :: p.1, p.2))

/-- Leading run of decimal digits and the remaining input. -/
def takeDigits : List Char → List Char × List Char
  | [] => ([], [])
  | c :: cs =>
    if c.isDigit then
      let p := takeDigits cs
      (c :: p.1, p.2)
    else ([], c :: cs)

/-- Numeric value of a digit run. -/
def digitsVal (ds : List Char) : Nat :=
  ds.foldl (fun acc c => acc * 10 + (c.toNat - '0'.toNat)) 0

/-- A JSON number token (integers only; a fraction or exponent makes the
parse fail in this model — no record under verification carries one). -/
def numTok : List Char → Option (Json × List Char)
  | [] => none
  | c :: cs =>
    let (neg, body) : Bool × List Char := if c == '-' then (true, cs) else (false, c :: cs)
    match takeDigits body with
    | ([], _) => none
    | (ds, rest) =>
      match rest with
      | e :: _ =>
        if e == '.' || e == 'e' || e == 'E' then none
        else some (.num (if neg then -(digitsVal ds : Int) else (digitsVal ds : Int)), rest)
      | [] => some (.num (if neg then -(digitsVal ds : Int) else (digitsVal ds : Int)), [])

mutual
/-- One JSON value and the remaining input; `fuel` bounds the recursion
depth (2 units per nesting level, see `jsonParse`). -/
def parseVal : Nat → List Char → Option (Json × List Char)
  | 0, _ => none
  | Nat.succ fuel, s =>
    match skipWs s with
    | 'n' :: 'u' :: 'l' :: 'l' :: r => some (.null, r)
    | 't' :: 'r' :: 'u' :: 'e' :: r => some (.bool true, r)
    | 'f' :: 'a' :: 'l' :: 's' :: 'e' :: r => some (.bool false, r)
    | '"' :: r => (strBody r).map (fun p => (.str p.1, p.2))
    | '[' :: r =>
      match skipWs r with
      | ']' :: r' => some (.arr [], r')
      | r' => (arrItems fuel r').map (fun p => (.arr p.1, p.2))
    | '{' :: r =>
      match skipWs r with
      | '}' :: r' => some (.obj [], r')
      | r' => (objItems fuel r').map (fun p => (.obj p.1, p.2))
    | s' => numTok s'

/-- Comma-separated array elements up to the closing bracket. -/
def arrItems : Nat → List Char → Option (List Json × List Char)
  | 0, _ => none
  | Nat.succ fuel, s =>
    match parseVal fuel s with
    | none => none
    | some (v, r) =>
      match skipWs r with
      | ',' :: r' => (arrItems fuel r').map (fun p => (v :: p.1, p.2))
      | ']' :: r' => some ([v], r')
      | _ => none

/-- Comma-separated `"key": value` members up to the closing brace. -/
def objItems : Nat → List Char → Option (List (List Char × Json) × List Char)
  | 0, _ => none
  | Nat.succ fuel, s =>
    match skipWs s with
    | '"' :: r =>
      match strBody r with
      | none => none
      | some (k, r') =>
        match skipWs r' with
        | ':' :: r2 =>
          match parseVal fuel r2 with
          | none => none
          | some (v, r3) =>
            match skipWs r3 with
            | ',' :: r4 => (objItems fuel r4).map (fun p => ((k, v) :: p.1, p.2))
            | '}' :: r4 => some ([(k, v)], r4)
            | _ => none
        | _ => none
    | _ => none
end

/-- Model of `JSON.parse` on this grammar: a single value with only
whitespace around it. -/
def jsonParse (s : List Char) : Option Json :=
  match parseVal (2 * s.length + 2) s with
  | some (j, r) => if (skipWs r).isEmpty then some j else none
  | none => none

/-- The canonical record shape (`interface WebhookRequest` in
`blobStorage.ts`): every field a string, the two maps string-to-string. -/
structure WebhookRequest where
  id : List Char
  receivedAt : List Char
  method : List Char
  path : List Char
  headers : List (List Char × List Char)
  queryParameters : List (List Char × List Char)
  rawBody : List Char
  contentType : List Char
  sourceIp : List Char
deriving DecidableEq

/-- The immediate result of `transformWebhook` on a parsed blob before any
shape assumption: the four fields read without a default may be absent
(`none` models JavaScript `undefined`), the five defaulted fields hold
whatever JSON value the `||` expression produced. -/
structure TransWebhook where
  id : Option Json
  receivedAt : Option Json
  method : Option Json
  path : Option Json
  headers : Json
  queryParameters : Json
  rawBody : Json
  contentType : Json
  sourceIp : Json

/-- JavaScript `v || d` where `v` may be `undefined`: the value when
present and truthy, otherwise the default. -/
def jsOr (v : Option Json) (d : Json) : Json :=
  match v with
  | some x => if truthy x then x else d
  | none => d

/-- `transformWebhook` from `blobStorage.ts`: reads the PascalCase fields
of the raw blob object, defaulting `Headers`/`QueryParameters` to `{}` and
`RawBody`/`ContentType`/`SourceIp` to the empty string. -/
def transformWebhook (raw : Json) : TransWebhook where
  id := jsGet raw "Id".toList
  receivedAt := jsGet raw "ReceivedAt".toList
  method := jsGet raw "Method".toList
  path := jsGet raw "Path".toList
  headers := jsOr (jsGet raw "Headers".toList) (.obj [])
  queryParameters := jsOr (jsGet raw "QueryParameters".toList) (.obj [])
  rawBody := jsOr (jsGet raw "RawBody".toList) (.str [])
  contentType := jsOr (jsGet raw "ContentType".toList) (.str [])
  sourceIp := jsOr (jsGet raw "SourceIp".toList) (.str [])

/-- Running `transformWebhook` on a parse result: property access on the
JavaScript value `null` throws (caught by every caller's `try`), every
other parse result flows through. -/
def loadRecord (j : Json) : Option TransWebhook :=
  match j with
  | .null => none
  | _ => some (transformWebhook j)

/-- A JSON string's characters, if the value is a string. -/
def asStr : Json → Option (List Char)
  | .str s => some s
  | _ => none

/-- A JSON object all of whose values are strings, as an association list. -/
def asStrMap : Json → Option (List (List Char × List Char))
  | .obj fields => fields.mapM (fun kv => (asStr kv.2).map (fun s => (kv.1, s)))
  | _ => none

/-- Shape check bridging `TransWebhook` to the declared `WebhookRequest`
interface.  The TypeScript code asserts this shape with a cast; a stored
record violating it would flow onward with `undefined` fields and make the
string-typed filters throw, a configuration outside this model (no claim
exercises it). -/
def canonicalize (t : TransWebhook) : Option WebhookRequest :=
  match asStr (jsOr t.id .null), asStr (jsOr t.receivedAt .null),
      asStr (jsOr t.method .null), asStr (jsOr t.path .null),
      asStrMap t.headers, asStrMap t.queryParameters,
      asStr t.rawBody, asStr t.contentType, asStr t.sourceIp with
  | some i, some r, some m, some p, some h, some q, some rb, some ct, some si =>
    some ⟨i, r, m, p, h, q, rb, ct, si⟩
  | _, _, _, _, _, _, _, _, _ => none

/-- Parsed blob content to canonical record. -/
def decode (j : Json) : Option WebhookRequest :=
  (loadRecord j).bind canonicalize

/-- One object in the blob store: its key, its content as a parse result
(`none` models an unreadable or JSON-invalid blob: the code's single
`catch` treats both identically), and whether a delete of this blob would
succeed (`deleteOk = false` models `blobClient.delete()` throwing). -/
structure Blob where
  name : List Char
  content : Option Json
  deleteOk : Bool

/-- `ListWebhooksParams` from `blobStorage.ts`: every field optional
(`undefined` is `none`). -/
structure ListWebhooksParams where
  date : Option (List Char) := none
  page : Option Int := none
  limit : Option Int := none
  method : Option (List Char) := none
  sourceIp : Option (List Char) := none
  search : Option (List Char) := none
  conversationId : Option (List Char) := none

/-- `ListWebhooksResult` from `blobStorage.ts`. -/
structure ListWebhooksResult where
  data : List WebhookRequest
  total : Nat
  page : Int
  limit : Int
deriving DecidableEq

/-- JavaScript `if (x)` on an optional string: the string when present and
nonempty, otherwise nothing. -/
def givenStr (o : Option (List Char)) : Option (List Char) :=
  match o with
  | some s => if s.isEmpty then none else some s
  | none => none

/-- Azure `listBlobsFlat({prefix})` plus the `.endsWith('.json')` filter of
`listBlobs` in `blobStorage.ts`: prefix-scoped listing, `.json` keys only.
The store's listing order is whatever order the list carries. -/
def listBlobs (store : List Blob) (pre : Option (List Char)) : List Blob :=
  let inScope : List Blob :=
    match pre with
    | some p => store.filter (fun b => leadMatch b.name p)
    | none => store
  inScope.filter (fun b => endsJson b.name)

/-- The `date ? `date/` : undefined` prefix argument of `getWebhooks`. -/
def dirArg (d : Option (List Char)) : Option (List Char) :=
  match d with
  | some s => if s.isEmpty then none else some (s ++ ['/'])
  | none => none

/-- The records `getWebhooks` materializes before filtering: every listed
blob that downloads, parses, and has the declared record shape; failures
are skipped by the per-blob `catch`. -/
def loadedRecords (store : List Blob) (d : Option (List Char)) : List WebhookRequest :=
  (listBlobs store (dirArg d)).filterMap (fun b => b.content.bind decode)

/-- The `method` filter: `w.method.toUpperCase() === method.toUpperCase()`. -/
def matchesMethod (m : List Char) (w : WebhookRequest) : Bool :=
  upperStr w.method == upperStr m

/-- The `sourceIp` filter: `w.sourceIp === sourceIp`. -/
def matchesSourceIp (ip : List Char) (w : WebhookRequest) : Bool :=
  w.sourceIp == ip

/-- The free-text `search` filter of `getWebhooks`: the lower-cased search
string tested with `includes` against the lower-cased `id`, `path`,
`rawBody`, `contentType`, and every value of `headers` and
`queryParameters`. -/
def matchesSearch (s : List Char) (w : WebhookRequest) : Bool :=
  let sl := lowerStr s
  hasSub (lowerStr w.id) sl ||
  hasSub (lowerStr w.path) sl ||
  hasSub (lowerStr w.rawBody) sl ||
  hasSub (lowerStr w.contentType) sl ||
  w.headers.any (fun kv => hasSub (lowerStr kv.2) sl) ||
  w.queryParameters.any (fun kv => hasSub (lowerStr kv.2) sl)

/-- The `conversationId` filter of `getWebhooks`: an empty `rawBody` never
matches; otherwise `rawBody` is parsed as JSON (a parse error never
matches), `parsed?.conversation?.id` is read, and the record matches when
that value is truthy and its string form, lower-cased, contains the
lower-cased filter value. -/
def matchesConvId (cid : List Char) (w : WebhookRequest) : Bool :=
  if w.rawBody.isEmpty then false
  else
    match jsonParse w.rawBody with
    | none => false
    | some parsed =>
      match (jsGet parsed "conversation".toList).bind (fun c => jsGet c "id".toList) with
      | none => false
      | some v => truthy v && hasSub (lowerStr (jsToString v)) (lowerStr cid)

/-- The sequential filter section of `getWebhooks`, in source order:
method, sourceIp, search, conversationId; each applied only when its
parameter is a nonempty string. -/
def applyFilters (ps : ListWebhooksParams) (ws : List WebhookRequest) : List WebhookRequest :=
  let f1 := match givenStr ps.method with
    | some m => ws.filter (matchesMethod m)
    | none => ws
  let f2 := match givenStr ps.sourceIp with
    | some ip => f1.filter (matchesSourceIp ip)
    | none => f1
  let f3 := match givenStr ps.search with
    | some s => f2.filter (matchesSearch s)
    | none => f2
  match givenStr ps.conversationId with
  | some cid => f3.filter (matchesConvId cid)
  | none => f3

/-- Platform `new Date(s).getTime()` restricted to ISO-8601 UTC timestamps
of the fixed shape `YYYY-MM-DDTHH:MM:SSZ`, the shape the service writes;
the returned integer concatenates the digit fields, which on this shape is
strictly order-isomorphic to the epoch value.  Every other string is `NaN`
(`none`) in this model. -/
def parseDate : List Char → Option Int
  | [y1, y2, y3, y4, '-', o1, o2, '-', d1, d2, 'T',
     h1, h2, ':', n1, n2, ':', s1, s2, 'Z'] =>
    if [y1, y2, y3, y4, o1, o2, d1, d2, h1, h2, n1, n2, s1, s2].all Char.isDigit then
      some (digitsVal [y1, y2, y3, y4, o1, o2, d1, d2, h1, h2, n1, n2, s1, s2] : Int)
    else none
  | _ => none

/-- The sort comparator of `getWebhooks`:
`new Date(b.receivedAt).getTime() - new Date(a.receivedAt).getTime()`.
When either date is invalid the subtraction is `NaN`, and the ECMAScript
`SortCompare` operation maps a `NaN` comparator result to `+0` — the two
records compare as equal. -/
def jsCmpRec (a b : WebhookRequest) : Int :=
  match parseDate b.receivedAt, parseDate a.receivedAt with
  | some tb, some ta => tb - ta
  | _, _ => 0

/-- `a` may be placed before `b`: the comparator is non-positive. -/
def recLe (a b : WebhookRequest) : Bool :=
  decide (jsCmpRec a b ≤ 0)

/-- Insert into a sorted-so-far list, keeping `a` before the first element
it may precede (helper of `sortBy`). -/
def insertLe (le : α → α → Bool) (a : α) : List α → List α
  | [] => [a]
  | b :: l => if le a b then a :: b :: l else b :: insertLe le a l

/-- `Array.prototype.sort(comparefn)`.  ECMAScript requires the sort to be
stable and, for a consistent comparator, ordered by the comparator; every
conforming engine agrees with any stable sorting algorithm there, so a
stable insertion sort models it. -/
def sortBy (le : α → α → Bool) : List α → List α
  | [] => []
  | a :: l => insertLe le a (sortBy le l)

/-- `Array.prototype.slice(s, e)`: negative indices count from the end,
indices clamp to the array bounds. -/
def jsSlice (l : List α) (s e : Int) : List α :=
  let len : Int := l.length
  let s' : Int := if s < 0 then max (len + s) 0 else min s len
  let e' : Int := if e < 0 then max (len + e) 0 else min e len
  (l.drop s'.toNat).take (e' - s').toNat

/-- `getWebhooks` from `blobStorage.ts`: list (optionally date-scoped),
load, filter, sort by `receivedAt` descending, paginate. -/
def getWebhooks (ps : ListWebhooksParams) (store : List Blob) : ListWebhooksResult :=
  let page := ps.page.getD 1
  let limit := ps.limit.getD 10
  let filtered := applyFilters ps (loadedRecords store ps.date)
  let sorted := sortBy recLe filtered
  let start := (page - 1) * limit
  { data := jsSlice sorted start (start + limit)
    total := sorted.length
    page := page
    limit := limit }

/-- The scan loop of `getWebhookById`: the blob NAME is tested with
`includes(id)`; a name-matching blob whose download or parse fails (or
whose parse result is `null`, making `transformWebhook` throw) is logged
and the scan continues. -/
def lookupScan (id : List Char) : List Blob → Option TransWebhook
  | [] => none
  | b :: rest =>
    if hasSub b.name id then
      match b.content.bind loadRecord with
      | some t => some t
      | none => lookupScan id rest
    else lookupScan id rest

/-- `getWebhookById` from `blobStorage.ts`. -/
def getWebhookById (store : List Blob) (id : List Char) : Option TransWebhook :=
  lookupScan id (listBlobs store none)

/-- `name.split('/')` has more than one part exactly when the name has a
separator; `parts[0]` is everything before the first one. -/
def dirOf (name : List Char) : Option (List Char) :=
  if name.any (· == '/') then some (name.takeWhile (fun c => c != '/')) else none

/-- Append if absent: a JavaScript `Set` keeps first-insertion order. -/
def addUnique (l : List (List Char)) (x : List Char) : List (List Char) :=
  if l.any (· == x) then l else l ++ [x]

/-- The default string sort comparator of `Array.prototype.sort`:
lexicographic by code unit. -/
def strLe : List Char → List Char → Bool
  | [], _ => true
  | _ :: _, [] => false
  | a :: as, b :: bs => if a == b then strLe as bs else decide (a.toNat < b.toNat)

/-- `getAvailableDates` from `blobStorage.ts`: every blob of the namespace
(no `.json` filter here), the part of its key before the first `/` when it
has one, deduplicated, sorted, reversed. -/
def getAvailableDates (store : List Blob) : List (List Char) :=
  (sortBy strLe
    (store.foldl
      (fun acc b =>
        match dirOf b.name with
        | some d => addUnique acc d
        | none => acc)
      [])).reverse

/-- The stats record of `getWebhookStats`. -/
structure WebhookStats where
  total : Nat
  byMethod : List (List Char × Nat)
  byDate : List (List Char × Nat)
deriving DecidableEq

/-- `map[k] = (map[k] || 0) + 1` on an insertion-ordered object. -/
def bump (m : List (List Char × Nat)) (k : List Char) : List (List Char × Nat) :=
  if m.any (fun kv => kv.1 == k) then
    m.map (fun kv => if kv.1 == k then (kv.1, kv.2 + 1) else kv)
  else m ++ [(k, 1)]

/-- One blob of the `getWebhookStats` loop.  The `try` swallows a download
or parse failure (counters untouched); `webhook.method.toUpperCase()`
throws when `Method` is not a string (counters untouched); after `byMethod`
is bumped, `webhook.receivedAt.split('T')` throws when `ReceivedAt` is not
a string, leaving the `byMethod` bump in place but no `byDate` bump. -/
def statsStep (acc : List (List Char × Nat) × List (List Char × Nat)) (b : Blob) :
    List (List Char × Nat) × List (List Char × Nat) :=
  match b.content.bind loadRecord with
  | none => acc
  | some t =>
    match t.method with
    | some (.str m) =>
      let bm := bump acc.1 (upperStr m)
      match t.receivedAt with
      | some (.str r) => (bm, bump acc.2 (r.takeWhile (fun c => c != 'T')))
      | _ => (bm, acc.2)
    | _ => acc

/-- `getWebhookStats` from `blobStorage.ts`: `total` is the LENGTH OF THE
LISTING (`blobs.length`), while the two maps are accumulated per readable
record. -/
def getWebhookStats (store : List Blob) : WebhookStats :=
  let blobs := listBlobs store none
  let maps := blobs.foldl statsStep ([], [])
  { total := blobs.length, byMethod := maps.1, byDate := maps.2 }

/-- The scan loop of `deleteWebhook`: first blob whose NAME `includes(id)`
gets a delete attempt; success returns `true`, a throwing delete is caught
and returns `false`; either way no later blob is visited.  The second
component records the keys on which a delete was attempted. -/
def deleteScan (id : List Char) : List Blob → Bool × List (List Char)
  | [] => (false, [])
  | b :: rest =>
    if hasSub b.name id then (b.deleteOk, [b.name])
    else deleteScan id rest

/-- `deleteWebhook` from `blobStorage.ts`. -/
def deleteWebhook (store : List Blob) (id : List Char) : Bool × List (List Char) :=
  deleteScan id (listBlobs store none)

/-- The `DELETE /api/webhooks/:id` route: a `false` from `deleteWebhook`
is surfaced as 404, `true` as 204. -/
def deleteRoute (store : List Blob) (id : List Char) : Nat :=
  if (deleteWebhook store id).1 then 204 else 404

/-! ## Supporting lemmas -/

theorem leadMatch_iff : ∀ (h n : List Char), leadMatch h n = true ↔ ∃ t, h = n ++ t
  | _, [] => by simp [leadMatch]
  | [], _ :: _ => by simp [leadMatch]
  | a :: hs, b :: ns => by
    simp only [leadMatch, Bool.and_eq_true, beq_iff_eq, leadMatch_iff hs ns,
      List.cons_append, List.cons.injEq]
    constructor
    · rintro ⟨rfl, t, rfl⟩
      exact ⟨t, rfl, rfl⟩
    · rintro ⟨t, rfl, rfl⟩
      exact ⟨rfl, t, rfl⟩

theorem hasSub_iff : ∀ (h n : List Char), hasSub h n = true ↔ ∃ p t, h = p ++ n ++ t
  | [], n => by
    cases n <;> simp [hasSub]
  | a :: hs, n => by
    simp only [hasSub, Bool.or_eq_true, leadMatch_iff, hasSub_iff hs n]
    constructor
    · rintro (⟨t, ht⟩ | ⟨p, t, ht⟩)
      · exact ⟨[], t, by simpa using ht⟩
      · exact ⟨a :: p, t, by simp [ht]⟩
    · rintro ⟨p, t, hp⟩
      cases p with
      | nil => exact Or.inl ⟨t, by simpa using hp⟩
      | cons c p' =>
        simp only [List.cons_append, List.cons.injEq] at hp
        exact Or.inr ⟨p', t, hp.2⟩

theorem length_insertLe (le : α → α → Bool) (a : α) :
    ∀ l : List α, (insertLe le a l).length = l.length + 1
  | [] => rfl
  | b :: l => by
    by_cases h : le a b = true <;> simp [insertLe, h, length_insertLe le a l]

theorem length_sortBy (le : α → α → Bool) : ∀ l : List α, (sortBy le l).length = l.length
  | [] => rfl
  | a :: l => by simp [sortBy, length_insertLe, length_sortBy le l]

theorem mem_insertLe (le : α → α → Bool) (a x : α) :
    ∀ l : List α, x ∈ insertLe le a l ↔ x = a ∨ x ∈ l
  | [] => by simp [insertLe]
  | b :: l => by
    by_cases h : le a b = true <;>
      simp [insertLe, h, mem_insertLe le a x l] <;> tauto

theorem mem_sortBy (le : α → α → Bool) (x : α) : ∀ l : List α, x ∈ sortBy le l ↔ x ∈ l
  | [] => Iff.rfl
  | a :: l => by simp [sortBy, mem_insertLe, mem_sortBy le x l]

theorem insertLe_congr (le le' : α → α → Bool) (a : α) :
    ∀ l : List α, (∀ x ∈ l, le a x = le' a x) → insertLe le a l = insertLe le' a l
  | [], _ => rfl
  | b :: l, h => by
    have hb : le a b = le' a b := h b (by simp)
    by_cases hab : le' a b = true
    · simp [insertLe, hb, hab]
    · simp [insertLe, hb, hab,
        insertLe_congr le le' a l (fun x hx => h x (by simp [hx]))]

theorem sortBy_congr (le le' : α → α → Bool) :
    ∀ l : List α, (∀ a ∈ l, ∀ b ∈ l, le a b = le' a b) → sortBy le l = sortBy le' l
  | [], _ => rfl
  | a :: l, h => by
    have hrec : sortBy le l = sortBy le' l :=
      sortBy_congr le le' l (fun x hx y hy => h x (by simp [hx]) y (by simp [hy]))
    simp only [sortBy, hrec]
    exact insertLe_congr le le' a _ (fun x hx =>
      h a (by simp) x (by simp [(mem_sortBy le' x l).mp hx]))

theorem pairwise_insertLe (le : α → α → Bool)
    (htot : ∀ a b : α, le a b = true ∨ le b a = true)
    (htrans : ∀ a b c : α, le a b = true → le b c = true → le a c = true) (a : α) :
    ∀ l : List α, l.Pairwise (fun x y => le x y = true) →
      (insertLe le a l).Pairwise (fun x y => le x y = true)
  | [], _ => by simp [insertLe]
  | b :: l, hp => by
    rcases List.pairwise_cons.mp hp with ⟨hbl, hl⟩
    by_cases hab : le a b = true
    · simp only [insertLe, hab, if_true]
      refine List.pairwise_cons.mpr ⟨?_, hp⟩
      intro x hx
      rcases List.mem_cons.mp hx with rfl | hx
      · exact hab
      · exact htrans a b x hab (hbl x hx)
    · simp only [insertLe, hab, if_false]
      refine List.pairwise_cons.mpr ⟨?_, pairwise_insertLe le htot htrans a l hl⟩
      intro x hx
      rcases (mem_insertLe le a x l).mp hx with hxa | hx
      · rw [hxa]
        exact (htot a b).resolve_left hab
      · exact hbl x hx

theorem pairwise_sortBy (le : α → α → Bool)
    (htot : ∀ a b : α, le a b = true ∨ le b a = true)
    (htrans : ∀ a b c : α, le a b = true → le b c = true → le a c = true) :
    ∀ l : List α, (sortBy le l).Pairwise (fun x y => le x y = true)
  | [] => List.Pairwise.nil
  | a :: l => pairwise_insertLe le htot htrans a _ (pairwise_sortBy le htot htrans l)

/-- A supplied filter's predicate, or vacuously true when absent. -/
def optPred (o : Option β) (f : β → α → Bool) (w : α) : Bool :=
  match o with
  | some x => f x w
  | none => true

/-- The conjunction of all supplied filters of a query, as one predicate
(the specification's description of step 3 of the query algorithm). -/
def satAll (ps : ListWebhooksParams) (w : WebhookRequest) : Bool :=
  optPred (givenStr ps.method) matchesMethod w &&
  optPred (givenStr ps.sourceIp) matchesSourceIp w &&
  optPred (givenStr ps.search) matchesSearch w &&
  optPred (givenStr ps.conversationId) matchesConvId w

theorem applyFilters_eq (ps : ListWebhooksParams) (ws : List WebhookRequest) :
    applyFilters ps ws = ws.filter (satAll ps) := by
  unfold applyFilters satAll optPred
  cases hm : givenStr ps.method <;> cases hip : givenStr ps.sourceIp <;>
    cases hs : givenStr ps.search <;> cases hc : givenStr ps.conversationId <;>
    simp [List.filter_filter, Bool.and_comm, Bool.and_left_comm, Bool.and_assoc]

theorem jsSlice_nat (l : List α) (a b : Nat) :
    jsSlice l (a : Int) (b : Int) = (l.drop a).take (b - a) := by
  unfold jsSlice
  have ha : ¬((a : Int) < 0) := by simp
  have hb : ¬((b : Int) < 0) := by simp
  simp only [ha, hb, if_false]
  have hmin : ∀ n : Nat, min (n : Int) (l.length : Int) = ((min n l.length : Nat) : Int) := by
    intro n
    simp [Nat.cast_min]
  rw [hmin a, hmin b]
  rw [Int.toNat_natCast]
  have hsub : (((min b l.length : Nat) : Int) - ((min a l.length : Nat) : Int)).toNat
      = min b l.length - min a l.length := by
    omega
  rw [hsub]
  rcases le_or_lt l.length a with h | h
  · have h1 : min a l.length = l.length := by omega
    have h2 : l.drop a = [] := List.drop_eq_nil_of_le h
    rw [h1, List.drop_length, h2]
    simp
  · have h1 : min a l.length = a := by omega
    rw [h1, List.take_eq_take]
    simp [List.length_drop]
    omega

theorem jsSlice_sublist (l : List α) (s e : Int) : (jsSlice l s e).Sublist l := by
  unfold jsSlice
  exact (List.take_sublist _ _).trans (List.drop_sublist _ _)

theorem statsStep_none (acc : List (List Char × Nat) × List (List Char × Nat)) (b : Blob)
    (h : b.content = none) : statsStep acc b = acc := by
  unfold statsStep
  rw [h]
  rfl

theorem foldl_statsStep_filter :
    ∀ (l : List Blob) (acc : List (List Char × Nat) × List (List Char × Nat)),
      l.foldl statsStep acc = (l.filter (fun b => b.content.isSome)).foldl statsStep acc
  | [], _ => rfl
  | b :: l, acc => by
    cases hc : b.content with
    | none =>
      simp only [List.foldl_cons, List.filter_cons, hc, Option.isSome_none,
        statsStep_none acc b hc]
      exact foldl_statsStep_filter l acc
    | some j =>
      simp only [List.foldl_cons, List.filter_cons, hc, Option.isSome_some, List.foldl_cons]
      exact foldl_statsStep_filter l _

theorem listBlobs_cons (b : Blob) (store : List Blob) :
    listBlobs (b :: store) none
      = if endsJson b.name = true then b :: listBlobs store none else listBlobs store none := by
  unfold listBlobs
  simp [List.filter_cons]

theorem listBlobs_filter_comm (store : List Blob) (q : Blob → Bool) :
    listBlobs (store.filter q) none = (listBlobs store none).filter q := by
  unfold listBlobs
  simp only [List.filter_filter]
  exact List.filter_congr (fun b _ => Bool.and_comm _ _)

theorem filterMap_decode_cons (q : Blob → Bool) (b : Blob) (store : List Blob)
    (h : b.content = none) :
    ((b :: store).filter q).filterMap (fun x => x.content.bind decode)
      = (store.filter q).filterMap (fun x => x.content.bind decode) := by
  rw [List.filter_cons]
  split_ifs <;> simp [List.filterMap_cons, h]

theorem loadedRecords_cons_none (b : Blob) (store : List Blob) (d : Option (List Char))
    (h : b.content = none) : loadedRecords (b :: store) d = loadedRecords store d := by
  unfold loadedRecords listBlobs
  cases dirArg d with
  | none => exact filterMap_decode_cons (fun a => endsJson a.name) b store h
  | some p =>
    simp only [List.filter_filter]
    exact filterMap_decode_cons _ b store h

/-- The first element of a list satisfying a test (used to state which
blob a scan settles on). -/
def firstWith (p : Blob → Bool) : List Blob → Option Blob
  | [] => none
  | b :: l => if p b then some b else firstWith p l

theorem lookupScan_of_first (id : List Char) :
    ∀ (l : List Blob) (b : Blob) (t : TransWebhook),
      firstWith (fun b' => hasSub b'.name id) l = some b →
      b.content.bind loadRecord = some t →
      lookupScan id l = some t
  | [], b, t, hfind, _ => by simp [firstWith] at hfind
  | a :: l, b, t, hfind, hload => by
    unfold firstWith at hfind
    unfold lookupScan
    by_cases h : hasSub a.name id = true
    · rw [if_pos h] at hfind
      cases hfind
      rw [if_pos h, hload]
    · rw [if_neg h] at hfind
      rw [if_neg h]
      exact lookupScan_of_first id l b t hfind hload

theorem deleteScan_map (id : List Char) (f : Blob → Option Json) :
    ∀ l : List Blob,
      deleteScan id (l.map (fun b => { b with content := f b })) = deleteScan id l
  | [] => rfl
  | b :: l => by
    unfold deleteScan
    by_cases h : hasSub b.name id = true
    · simp [h]
    · simp [h, deleteScan_map id f l]

theorem listBlobs_map_content (store : List Blob) (f : Blob → Option Json) :
    listBlobs (store.map (fun b => { b with content := f b })) none
      = (listBlobs store none).map (fun b => { b with content := f b }) := by
  unfold listBlobs
  rw [List.filter_map]
  rfl

/-- The search string occurs, case-insensitively, somewhere inside the
field (the specification's notion of a case-insensitive substring
match). -/
def ciSub (needle hay : List Char) : Prop :=
  ∃ p t, lowerStr hay = p ++ lowerStr needle ++ t

/-! ## The claims -/

/-- C5: for every filter specification and every page/limit choice, the
`total` returned by the query equals the number of loaded records
satisfying the conjunction of all supplied filters — counted after
filtering and before pagination — and is independent of the `page` and
`limit` values. -/
theorem c5_total_counts_filtered (ps : ListWebhooksParams) (store : List Blob)
    (p l : Option Int) :
    (getWebhooks ps store).total
        = ((loadedRecords store ps.date).filter (satAll ps)).length
    ∧ (getWebhooks { ps with page := p, limit := l } store).total
        = (getWebhooks ps store).total := by
  constructor
  · show (sortBy recLe (applyFilters ps (loadedRecords store ps.date))).length = _
    rw [length_sortBy, applyFilters_eq]
  · rfl

/-- C7: a record satisfies the free-text search filter exactly when the
search string is a case-insensitive substring of its `id`, `path`,
`rawBody`, `contentType`, or of some value of `headers` or
`queryParameters`. -/
theorem c7_search_iff (w : WebhookRequest) (s : List Char) :
    matchesSearch s w = true ↔
      ciSub s w.id ∨ ciSub s w.path ∨ ciSub s w.rawBody ∨ ciSub s w.contentType ∨
      (∃ kv ∈ w.headers, ciSub s kv.2) ∨ (∃ kv ∈ w.queryParameters, ciSub s kv.2) := by
  unfold matchesSearch ciSub
  simp [hasSub_iff, List.any_eq_true, or_assoc]

/-- C6: with page `p ≥ 1` and limit `L ≥ 1` (defaults 1 and 10), the query
returns the slice `[(p-1)*L, (p-1)*L + L)` of the sorted filtered records;
its `total` is the filtered count whatever the page; the data slice is
nonempty exactly for the `⌈T/L⌉` pages `1..⌈T/L⌉`, and any page beyond
that yields an empty slice, not an error. -/
theorem c6_pagination (ps : ListWebhooksParams) (store : List Blob) (p L : Nat)
    (hp : 1 ≤ p) (hL : 1 ≤ L) :
    (getWebhooks { ps with page := some (p : Int), limit := some (L : Int) } store).data
        = ((sortBy recLe (applyFilters ps (loadedRecords store ps.date))).drop
            ((p - 1) * L)).take L
    ∧ (getWebhooks { ps with page := some (p : Int), limit := some (L : Int) } store).total
        = (applyFilters ps (loadedRecords store ps.date)).length
    ∧ ((getWebhooks { ps with page := some (p : Int), limit := some (L : Int) } store).data = []
        ↔ ¬p ≤ ((applyFilters ps (loadedRecords store ps.date)).length + L - 1) / L)
    ∧ getWebhooks { ps with page := none, limit := none } store
        = getWebhooks { ps with page := some 1, limit := some 10 } store := by
  have hc1 : ((p : Int) - 1) * (L : Int) = (((p - 1) * L : Nat) : Int) := by
    have h1 : ((p : Int) - 1) = ((p - 1 : Nat) : Int) := by omega
    rw [h1, Nat.cast_mul]
  have hdata : (getWebhooks { ps with page := some (p : Int), limit := some (L : Int) } store).data
      = ((sortBy recLe (applyFilters ps (loadedRecords store ps.date))).drop ((p - 1) * L)).take L := by
    show jsSlice (sortBy recLe (applyFilters ps (loadedRecords store ps.date)))
        (((p : Int) - 1) * (L : Int)) (((p : Int) - 1) * (L : Int) + (L : Int)) = _
    rw [hc1, ← Nat.cast_add, jsSlice_nat]
    have h2 : (p - 1) * L + L - (p - 1) * L = L := by omega
    rw [h2]
  refine ⟨hdata, length_sortBy _ _, ?_, rfl⟩
  rw [hdata, ← List.length_eq_zero, List.length_take, List.length_drop,
    length_sortBy recLe _]
  rw [Nat.le_div_iff_mul_le (by omega : 0 < L)]
  obtain ⟨q, rfl⟩ : ∃ q, p = q + 1 := ⟨p - 1, by omega⟩
  simp only [Nat.add_sub_cancel, Nat.succ_mul]
  generalize q * L = m
  generalize (applyFilters ps (loadedRecords store ps.date)).length = T
  omega

/-- A stored record in the PascalCase convention with only the four
required fields, as the ingesting writer produces. -/
def mkRaw (i r m p : List Char) : Json :=
  .obj [("Id".toList, .str i), ("ReceivedAt".toList, .str r),
        ("Method".toList, .str m), ("Path".toList, .str p)]

/-- The same record in the lower-camel-case convention. -/
def mkRawCamel (i r m p : List Char) : Json :=
  .obj [("id".toList, .str i), ("receivedAt".toList, .str r),
        ("method".toList, .str m), ("path".toList, .str p)]

/-- C3 counterexample: on a valid JSON object in the lower-camel-case
convention the loader does NOT produce the canonical record — the `id`
comes out `undefined`, not the stored value — while the capitalized
convention maps correctly.  The claim that both casings are accepted is
false. -/
theorem c3_counterexample :
    (transformWebhook (mkRawCamel "abc".toList "2026-01-01T00:00:00Z".toList
        "GET".toList "/p".toList)).id = none
    ∧ (transformWebhook (mkRaw "abc".toList "2026-01-01T00:00:00Z".toList
        "GET".toList "/p".toList)).id = some (.str "abc".toList) :=
  ⟨rfl, rfl⟩

/-- C3 amended: the loader accepts only the capitalized (PascalCase)
convention.  On such an object it maps the four required fields and
defaults missing `Headers`/`QueryParameters` to empty objects and missing
`RawBody`/`ContentType`/`SourceIp` to the empty string, never failing on a
missing optional attribute; lower-camel-case field names are not
recognized. -/
theorem c3_amended_pascal_only (i r m p : List Char) :
    transformWebhook (mkRaw i r m p)
      = { id := some (.str i), receivedAt := some (.str r), method := some (.str m),
          path := some (.str p), headers := .obj [], queryParameters := .obj [],
          rawBody := .str [], contentType := .str [], sourceIp := .str [] } :=
  rfl

/-- A `.json` blob whose content fails to download or parse. -/
def c2blob : Blob := { name := "2026-01-01/x.json".toList, content := none, deleteOk := true }

/-- C2 counterexample: a namespace holding one `.json` blob whose content
does not parse.  Zero records load, yet `stats().total = 1`: `total`
counts LISTED blobs, not successfully parsed ones (the maps do exclude the
failure). -/
theorem c2_counterexample :
    (getWebhookStats [c2blob]).total = 1
    ∧ ((listBlobs [c2blob] none).filter (fun b => (b.content.bind decode).isSome)).length = 0
    ∧ (getWebhookStats [c2blob]).byMethod = []
    ∧ (getWebhookStats [c2blob]).byDate = [] :=
  ⟨rfl, rfl, rfl, rfl⟩

/-- C2 amended: `stats().total` equals the number of `.json` blobs LISTED
in the namespace, including those that fail to load or parse; the
`byMethod` and `byDate` maps are computed from the readable records only,
and a failing blob does not abort the aggregation (removing the unreadable
blobs leaves both maps unchanged). -/
theorem c2_amended_stats (store : List Blob) :
    (getWebhookStats store).total = (listBlobs store none).length
    ∧ (getWebhookStats store).byMethod
        = (getWebhookStats (store.filter (fun b => b.content.isSome))).byMethod
    ∧ (getWebhookStats store).byDate
        = (getWebhookStats (store.filter (fun b => b.content.isSome))).byDate := by
  have key : (listBlobs store none).foldl statsStep ([], [])
      = (listBlobs (store.filter (fun b => b.content.isSome)) none).foldl statsStep ([], []) := by
    rw [listBlobs_filter_comm store (fun b => b.content.isSome)]
    exact foldl_statsStep_filter (listBlobs store none) ([], [])
  exact ⟨rfl, congrArg Prod.fst key, congrArg Prod.snd key⟩

theorem mem_addUnique_self (d : List Char) (l : List (List Char)) : d ∈ addUnique l d := by
  unfold addUnique
  split_ifs with h
  · rcases List.any_eq_true.mp h with ⟨y, hy, hyd⟩
    rw [← show y = d from by simpa using hyd]
    exact hy
  · simp

theorem mem_addUnique_of_mem (x d : List Char) (l : List (List Char)) (h : x ∈ l) :
    x ∈ addUnique l d := by
  unfold addUnique
  split_ifs
  · exact h
  · simp [h]

theorem mem_foldl_dates (x : List Char) :
    ∀ (l : List Blob) (acc : List (List Char)), x ∈ acc →
      x ∈ l.foldl
        (fun acc b =>
          match dirOf b.name with
          | some d => addUnique acc d
          | none => acc)
        acc
  | [], _, h => h
  | b :: l, acc, h => by
    rw [List.foldl_cons]
    cases hd : dirOf b.name with
    | none => exact mem_foldl_dates x l acc (by simpa [hd] using h)
    | some d =>
      refine mem_foldl_dates x l _ ?_
      simp only [hd]
      exact mem_addUnique_of_mem x d acc h

/-- A `.json` blob with unparseable content, for C9. -/
def c9blob : Blob := { name := "2026-01-01/x.json".toList, content := none, deleteOk := true }

/-- C9 counterexample: a namespace holding exactly one blob, whose content
is invalid JSON.  The query indeed excludes it, but `stats().total`
counts it and `listDates` lists its date folder — it is NOT excluded from
the results of all three operations as claimed. -/
theorem c9_counterexample :
    (getWebhooks {} [c9blob]).data = []
    ∧ (getWebhooks {} [c9blob]).total = 0
    ∧ (getWebhookStats [c9blob]).total = 1
    ∧ getAvailableDates [c9blob] = ["2026-01-01".toList] :=
  ⟨rfl, rfl, rfl, rfl⟩

/-- C9 amended: a blob whose content is unreadable or invalid JSON is
silently excluded from the records of `query` (the whole query result is
as if the blob were absent) and from the `byMethod`/`byDate` maps of
`stats`, and none of the three operations fails because of it; but it IS
still counted by `stats().total` when its key ends in `.json`, and its
date prefix still appears in `listDates`. -/
theorem c9_amended_invalid_blob (store : List Blob) (b : Blob) (ps : ListWebhooksParams)
    (hb : b.content = none) :
    getWebhooks ps (b :: store) = getWebhooks ps store
    ∧ (getWebhookStats (b :: store)).byMethod = (getWebhookStats store).byMethod
    ∧ (getWebhookStats (b :: store)).byDate = (getWebhookStats store).byDate
    ∧ (getWebhookStats (b :: store)).total
        = (getWebhookStats store).total + (if endsJson b.name = true then 1 else 0)
    ∧ ∀ d, dirOf b.name = some d → d ∈ getAvailableDates (b :: store) := by
  have h1 : loadedRecords (b :: store) ps.date = loadedRecords store ps.date :=
    loadedRecords_cons_none b store ps.date hb
  have h2 := listBlobs_cons b store
  have hfold : (listBlobs (b :: store) none).foldl statsStep ([], [])
      = (listBlobs store none).foldl statsStep ([], []) := by
    rw [h2]
    split_ifs
    · rw [List.foldl_cons, statsStep_none ([], []) b hb]
    · rfl
  have hlen : (listBlobs (b :: store) none).length
      = (listBlobs store none).length + (if endsJson b.name = true then 1 else 0) := by
    rw [h2]
    split_ifs <;> simp
  refine ⟨?_, congrArg Prod.fst hfold, congrArg Prod.snd hfold, hlen, ?_⟩
  · unfold getWebhooks
    rw [h1]
  · intro d hd
    unfold getAvailableDates
    rw [List.mem_reverse, mem_sortBy, List.foldl_cons]
    refine mem_foldl_dates d store _ ?_
    simp only [hd]
    exact mem_addUnique_self d []

/-- A blob whose key contains `abc` but whose stored record's `Id` field
is `zzz`. -/
def c1blob : Blob :=
  { name := "2026-01-01/abc.json".toList,
    content := some (mkRaw "zzz".toList "2026-01-01T00:00:00Z".toList
      "GET".toList "/p".toList),
    deleteOk := true }

/-- The record `getWebhookById` produces for `c1blob`. -/
def c1trans : TransWebhook :=
  transformWebhook (mkRaw "zzz".toList "2026-01-01T00:00:00Z".toList
    "GET".toList "/p".toList)

/-- A key-matching blob with no readable record at all. -/
def c1blobBad : Blob :=
  { name := "2026-01-02/abc.json".toList, content := none, deleteOk := true }

/-- C1 counterexample: looking up id `abc` in a namespace whose only
record carries id `zzz` RETURNS that record, because the scan compares the
requested id against the blob KEY (`includes`), never against the record's
`id` field; and `deleteWebhook` deletes a key-matching blob whose content
cannot even be read, so it cannot have compared any `id` field either. -/
theorem c1_counterexample :
    getWebhookById [c1blob] "abc".toList = some c1trans
    ∧ c1trans.id = some (.str "zzz".toList)
    ∧ "zzz".toList ≠ "abc".toList
    ∧ deleteWebhook [c1blobBad] "abc".toList = (true, ["2026-01-02/abc.json".toList]) :=
  ⟨rfl, rfl, by decide, rfl⟩

theorem lookupScan_skip_fail (id : List Char) :
    ∀ (l1 l2 : List Blob) (bf : Blob), bf.content.bind loadRecord = none →
      lookupScan id (l1 ++ bf :: l2) = lookupScan id (l1 ++ l2)
  | [], l2, bf, h => by
    show (if hasSub bf.name id = true then
        match bf.content.bind loadRecord with
        | some t => some t
        | none => lookupScan id l2
      else lookupScan id l2) = lookupScan id l2
    rw [h]
    split_ifs <;> rfl
  | a :: l1, l2, bf, h => by
    have ih := lookupScan_skip_fail id l1 l2 bf h
    show (if hasSub a.name id = true then
        match a.content.bind loadRecord with
        | some t => some t
        | none => lookupScan id (l1 ++ bf :: l2)
      else lookupScan id (l1 ++ bf :: l2))
      = (if hasSub a.name id = true then
        match a.content.bind loadRecord with
        | some t => some t
        | none => lookupScan id (l1 ++ l2)
      else lookupScan id (l1 ++ l2))
    rw [ih]

/-- C1 amended: `getWebhookById` and `deleteWebhook` scan the `.json`
blobs and pick the first whose KEY contains the requested id as a
substring — the record's `id` field is never consulted.  If that first
key-matching blob loads, its record is returned (whatever its `id`); a
blob that fails to load — key-matching or not — is skipped and the scan
continues exactly as if the blob were absent; and `deleteWebhook`'s
behaviour is entirely independent of every blob's content. -/
theorem c1_amended_key_scan (store : List Blob) (id : List Char) (b : Blob) (t : TransWebhook)
    (hfirst : firstWith (fun b' => hasSub b'.name id) (listBlobs store none) = some b)
    (hload : b.content.bind loadRecord = some t) :
    getWebhookById store id = some t
    ∧ (∀ (s1 s2 : List Blob) (bf : Blob), bf.content.bind loadRecord = none →
        getWebhookById (s1 ++ bf :: s2) id = getWebhookById (s1 ++ s2) id)
    ∧ ∀ f : Blob → Option Json,
        deleteWebhook (store.map (fun b' => { b' with content := f b' })) id
          = deleteWebhook store id := by
  refine ⟨lookupScan_of_first id _ b t hfirst hload, ?_, ?_⟩
  · intro s1 s2 bf hbf
    show lookupScan id ((s1 ++ bf :: s2).filter (fun x => endsJson x.name))
        = lookupScan id ((s1 ++ s2).filter (fun x => endsJson x.name))
    rw [List.filter_append, List.filter_cons, List.filter_append]
    split_ifs with hj
    · exact lookupScan_skip_fail id _ _ bf hbf
    · rfl
  · intro f
    show deleteScan id (listBlobs (store.map (fun b' => { b' with content := f b' })) none) = _
    rw [listBlobs_map_content]
    exact deleteScan_map id f _

theorem c1_amended_key_scan_witness :
    (firstWith (fun b' => hasSub b'.name "abc".toList) (listBlobs [c1blob] none) = some c1blob
      ∧ c1blob.content.bind loadRecord = some c1trans
      ∧ c1blobBad.content.bind loadRecord = none
      ∧ hasSub c1blobBad.name "abc".toList = true)
    ∧ getWebhookById [c1blob] "abc".toList = some c1trans
    ∧ getWebhookById ([] ++ c1blobBad :: [c1blob]) "abc".toList
        = getWebhookById ([] ++ [c1blob]) "abc".toList
    ∧ getWebhookById (c1blobBad :: [c1blob]) "abc".toList = some c1trans
    ∧ ∀ f : Blob → Option Json,
        deleteWebhook ([c1blob].map (fun b' => { b' with content := f b' })) "abc".toList
          = deleteWebhook [c1blob] "abc".toList :=
  ⟨⟨rfl, rfl, rfl, rfl⟩,
    (c1_amended_key_scan [c1blob] "abc".toList c1blob c1trans rfl rfl).1,
    (c1_amended_key_scan [c1blob] "abc".toList c1blob c1trans rfl rfl).2.1
      [] [c1blob] c1blobBad rfl,
    ((c1_amended_key_scan [c1blob] "abc".toList c1blob c1trans rfl rfl).2.1
        [] [c1blob] c1blobBad rfl).trans
      ((c1_amended_key_scan [c1blob] "abc".toList c1blob c1trans rfl rfl).1),
    (c1_amended_key_scan [c1blob] "abc".toList c1blob c1trans rfl rfl).2.2⟩

theorem deleteScan_skip (id : List Char) :
    ∀ (l₁ l₂ : List Blob), (∀ a ∈ l₁, ¬hasSub a.name id = true) →
      deleteScan id (l₁ ++ l₂) = deleteScan id l₂
  | [], _, _ => rfl
  | a :: l₁, l₂, h => by
    rw [List.cons_append]
    have hstep : deleteScan id (a :: (l₁ ++ l₂)) = deleteScan id (l₁ ++ l₂) := by
      show (if hasSub a.name id = true then (a.deleteOk, [a.name])
          else deleteScan id (l₁ ++ l₂)) = deleteScan id (l₁ ++ l₂)
      rw [if_neg (h a (by simp))]
    rw [hstep]
    exact deleteScan_skip id l₁ l₂ (fun x hx => h x (by simp [hx]))

theorem mem_of_mem_listBlobs (s : List Blob) (a : Blob) (h : a ∈ listBlobs s none) : a ∈ s := by
  unfold listBlobs at h
  exact List.mem_of_mem_filter h

/-- C10: when the first `.json` blob whose key contains the id fails to
delete, `deleteWebhook` catches the error and returns `false` — the very
value it returns when nothing matches, which the DELETE route surfaces as
404 — and attempts no delete on any later matching blob. -/
theorem c10_delete_failure (pre post : List Blob) (b : Blob) (id : List Char)
    (hpre : ∀ a ∈ pre, ¬(endsJson a.name = true ∧ hasSub a.name id = true))
    (hbj : endsJson b.name = true) (hbm : hasSub b.name id = true)
    (hbf : b.deleteOk = false) :
    deleteWebhook (pre ++ b :: post) id = (false, [b.name])
    ∧ deleteRoute (pre ++ b :: post) id = 404
    ∧ ∀ s : List Blob, (∀ a ∈ s, ¬hasSub a.name id = true) →
        deleteWebhook s id = (false, []) := by
  have hlist : listBlobs (pre ++ b :: post) none
      = pre.filter (fun x => endsJson x.name) ++ b :: post.filter (fun x => endsJson x.name) := by
    unfold listBlobs
    rw [List.filter_append, List.filter_cons, if_pos hbj]
  have hmain : deleteWebhook (pre ++ b :: post) id = (false, [b.name]) := by
    show deleteScan id (listBlobs (pre ++ b :: post) none) = _
    rw [hlist, deleteScan_skip id _ _ ?hskip]
    case hskip =>
      intro a ha
      exact fun hs => hpre a (List.mem_of_mem_filter ha) ⟨(List.mem_filter.mp ha).2, hs⟩
    unfold deleteScan
    rw [if_pos hbm, hbf]
  refine ⟨hmain, ?_, ?_⟩
  · unfold deleteRoute
    rw [hmain]
    rfl
  · intro s hs
    show deleteScan id (listBlobs s none) = _
    calc deleteScan id (listBlobs s none)
        = deleteScan id (listBlobs s none ++ []) := by rw [List.append_nil]
      _ = deleteScan id [] :=
          deleteScan_skip id _ [] (fun a ha => hs a (mem_of_mem_listBlobs s a ha))
      _ = (false, []) := rfl

/-- A readable record whose `ReceivedAt` does not parse as a date; its key
precedes `c4goodBlob`'s in the store's lexicographic listing order. -/
def c4badBlob : Blob :=
  { name := "2026-01-01/bad.json".toList,
    content := some (mkRaw "bad".toList "not-a-date".toList "GET".toList "/x".toList),
    deleteOk := true }

/-- A readable record with a valid timestamp. -/
def c4goodBlob : Blob :=
  { name := "2026-01-02/good.json".toList,
    content := some (mkRaw "good".toList "2026-01-02T00:00:00Z".toList
      "GET".toList "/y".toList),
    deleteOk := true }

/-- C4 counterexample: with the unparseable-timestamp record listed first,
the query returns it FIRST, before the valid record — the comparator
yields `NaN`, which `SortCompare` turns into `+0` ("equal"), so the stable
sort leaves the invalid record in place instead of ordering it as older
than (after) every valid record. -/
theorem c4_counterexample :
    (getWebhooks {} [c4badBlob, c4goodBlob]).data
      = [{ id := "bad".toList, receivedAt := "not-a-date".toList, method := "GET".toList,
           path := "/x".toList, headers := [], queryParameters := [], rawBody := [],
           contentType := [], sourceIp := [] },
         { id := "good".toList, receivedAt := "2026-01-02T00:00:00Z".toList,
           method := "GET".toList, path := "/y".toList, headers := [],
           queryParameters := [], rawBody := [], contentType := [], sourceIp := [] }]
    ∧ parseDate "not-a-date".toList = none
    ∧ parseDate "2026-01-02T00:00:00Z".toList = some 20260102000000 :=
  ⟨rfl, rfl, rfl⟩

/-- The sort key of a returned record, with 0 standing for an invalid
timestamp (only used under a hypothesis ruling those out). -/
def recTimeD (w : WebhookRequest) : Int := (parseDate w.receivedAt).getD 0

/-- C4 amended: no error is ever raised by the sort, and when EVERY loaded
record's `receivedAt` parses, the returned page is ordered by `receivedAt`
descending; a record with an unparseable `receivedAt` instead compares
equal to everything (the `NaN` comparator result becomes `+0`), so it
keeps its relative listing position rather than sorting as older than all
valid records. -/
theorem c4_amended_sorted_when_valid (ps : ListWebhooksParams) (store : List Blob)
    (hval : ∀ w ∈ loadedRecords store ps.date, (parseDate w.receivedAt).isSome = true) :
    (getWebhooks ps store).data.Pairwise (fun a b => recTimeD b ≤ recTimeD a) := by
  have hsub : (getWebhooks ps store).data.Sublist
      (sortBy recLe (applyFilters ps (loadedRecords store ps.date))) :=
    jsSlice_sublist _ _ _
  refine List.Pairwise.sublist hsub ?_
  have hmem : ∀ w ∈ applyFilters ps (loadedRecords store ps.date),
      (parseDate w.receivedAt).isSome = true := by
    intro w hw
    rw [applyFilters_eq] at hw
    exact hval w (List.mem_of_mem_filter hw)
  have hcongr : sortBy recLe (applyFilters ps (loadedRecords store ps.date))
      = sortBy (fun a b => decide (recTimeD b ≤ recTimeD a))
          (applyFilters ps (loadedRecords store ps.date)) := by
    apply sortBy_congr
    intro a ha b hb
    rcases Option.isSome_iff_exists.mp (hmem a ha) with ⟨ta, hta⟩
    rcases Option.isSome_iff_exists.mp (hmem b hb) with ⟨tb, htb⟩
    unfold recLe jsCmpRec recTimeD
    rw [hta, htb]
    simp only [Option.getD_some]
    rw [decide_eq_decide]
    omega
  rw [hcongr]
  have hpw := pairwise_sortBy (fun a b => decide (recTimeD b ≤ recTimeD a))
    (fun a b => by
      rcases le_total (recTimeD b) (recTimeD a) with h | h
      · exact Or.inl (decide_eq_true h)
      · exact Or.inr (decide_eq_true h))
    (fun a b c hab hbc => by
      have h1 := of_decide_eq_true hab
      have h2 := of_decide_eq_true hbc
      exact decide_eq_true (le_trans h2 h1))
    (applyFilters ps (loadedRecords store ps.date))
  exact hpw.imp (fun h => of_decide_eq_true h)

/-- A record whose body carries `conversation.id` with the falsy value
`false`. -/
def c8rec : WebhookRequest :=
  { id := "w8".toList, receivedAt := "2026-01-01T00:00:00Z".toList, method := "POST".toList,
    path := "/hook".toList, headers := [], queryParameters := [],
    rawBody := "\x7b\"conversation\":\x7b\"id\":false\x7d\x7d".toList,
    contentType := "application/json".toList, sourceIp := "1.2.3.4".toList }

/-- C8 counterexample: this record's body parses, the path
`conversation.id` exists, and the filter value `false` is a
(case-insensitive) substring of the extracted value's string form — the
claim says such a record matches — yet the filter rejects it, because the
code additionally requires the extracted value to be TRUTHY (`convId &&
...`), and `false` is falsy. -/
theorem c8_counterexample :
    matchesConvId "false".toList c8rec = false
    ∧ jsonParse c8rec.rawBody
        = some (.obj [("conversation".toList, .obj [("id".toList, .bool false)])])
    ∧ (jsGet (.obj [("conversation".toList, .obj [("id".toList, .bool false)])])
          "conversation".toList).bind (fun c => jsGet c "id".toList)
        = some (.bool false)
    ∧ ciSub "false".toList (jsToString (.bool false)) :=
  ⟨rfl, rfl, rfl, ⟨[], [], by simp [jsToString]⟩⟩

/-- C8 amended: a record satisfies the `conversationId` filter exactly
when its `rawBody` is nonempty, parses as JSON, the path
`conversation.id` exists in the parse result with a TRUTHY value, and the
filter string is a case-insensitive substring of that value's string
form; an empty, unparseable, or path-less body never matches and raises
no error. -/
theorem c8_amended_conv_filter (w : WebhookRequest) (cid : List Char) :
    matchesConvId cid w = true ↔
      w.rawBody ≠ [] ∧ ∃ j, jsonParse w.rawBody = some j ∧
        ∃ v, (jsGet j "conversation".toList).bind (fun c => jsGet c "id".toList) = some v ∧
          truthy v = true ∧ ciSub cid (jsToString v) := by
  unfold matchesConvId ciSub
  by_cases he : w.rawBody.isEmpty = true
  · have hnil : w.rawBody = [] := by simpa using he
    simp [he, hnil]
  · have hne : w.rawBody ≠ [] := by simpa using he
    rw [if_neg he]
    cases hp : jsonParse w.rawBody with
    | none => simp [hne]
    | some j =>
      cases hv : (jsGet j ['c', 'o', 'n', 'v', 'e', 'r', 's', 'a', 't', 'i', 'o', 'n']).bind
          (fun a => jsGet a ['i', 'd']) with
      | none => simp [hne, hv]
      | some v => simp [hne, hv, hasSub_iff]

theorem c4_amended_sorted_witness :
    (∀ w ∈ loadedRecords [c4goodBlob] none, (parseDate w.receivedAt).isSome = true)
    ∧ (getWebhooks {} [c4goodBlob]).data.Pairwise (fun a b => recTimeD b ≤ recTimeD a) :=
  ⟨by decide, c4_amended_sorted_when_valid {} [c4goodBlob] (by decide)⟩

def c6blobA : Blob :=
  { name := "2026-01-01/a.json".toList,
    content := some (mkRaw "a".toList "2026-01-01T00:00:00Z".toList "GET".toList "/a".toList),
    deleteOk := true }

def c6blobB : Blob :=
  { name := "2026-01-02/b.json".toList,
    content := some (mkRaw "b".toList "2026-01-02T00:00:00Z".toList "GET".toList "/b".toList),
    deleteOk := true }

theorem c6_pagination_witness :
    ((1 : Nat) ≤ 2 ∧ (1 : Nat) ≤ 1)
    ∧ (getWebhooks { page := some ((2 : Nat) : Int), limit := some ((1 : Nat) : Int) }
          [c6blobA, c6blobB]).data
        = ((sortBy recLe (applyFilters {} (loadedRecords [c6blobA, c6blobB] none))).drop
            ((2 - 1) * 1)).take 1 :=
  ⟨⟨by decide, by decide⟩,
    (c6_pagination {} [c6blobA, c6blobB] 2 1 (by decide) (by decide)).1⟩

theorem c9_amended_witness :
    c9blob.content = none
    ∧ getWebhooks {} (c9blob :: []) = getWebhooks {} []
    ∧ (getWebhookStats (c9blob :: [])).total
        = (getWebhookStats []).total + (if endsJson c9blob.name = true then 1 else 0) :=
  ⟨rfl, (c9_amended_invalid_blob [] c9blob {} rfl).1,
    (c9_amended_invalid_blob [] c9blob {} rfl).2.2.2.1⟩

def c10pre : Blob :=
  { name := "2026-01-01/keep.json".toList, content := none, deleteOk := true }

def c10fail : Blob :=
  { name := "2026-01-01/abc.json".toList, content := none, deleteOk := false }

def c10post : Blob :=
  { name := "2026-01-02/abc.json".toList, content := none, deleteOk := true }

theorem c10_delete_failure_witness :
    ((∀ a ∈ [c10pre], ¬(endsJson a.name = true ∧ hasSub a.name "abc".toList = true))
      ∧ endsJson c10fail.name = true ∧ hasSub c10fail.name "abc".toList = true
      ∧ c10fail.deleteOk = false)
    ∧ deleteWebhook ([c10pre] ++ c10fail :: [c10post]) "abc".toList
        = (false, [c10fail.name])
    ∧ deleteRoute ([c10pre] ++ c10fail :: [c10post]) "abc".toList = 404 :=
  ⟨⟨by decide, by decide, by decide, rfl⟩,
    (c10_delete_failure [c10pre] [c10post] c10fail "abc".toList
      (by decide) (by decide) (by decide) rfl).1,
    (c10_delete_failure [c10pre] [c10post] c10fail "abc".toList
      (by decide) (by decide) (by decide) rfl).2.1⟩
